import Mathlib

/-!
# Verification of the Naive-Chess-Engine repository

Shallow embedding of the repository's Python sources (`pieces.py`, `board.py`,
`engine.py`, `game.py`) as executable Lean definitions, followed by theorems
settling the claims about the specification.

Modelling conventions:
* Python dicts keyed by `Square` / piece identity become insertion-ordered
  association lists (`List (κ × ν)`), with upsert semantics matching
  `d[k] = v`; Python sets become duplicate-free lists (`add` appends when
  absent, `discard` filters).  Set/dict iteration order in the source is
  only ever observed through set contents, membership, or an exception
  being raised at all, so the list order chosen here is immaterial.
* `uuid.uuid4()` identities become `Nat` tags fixed at construction; Python
  `GamePiece.__eq__`/`__hash__` compare uuids, so sets of pieces are lists
  of these tags, resolved back to piece data through the board position.
* Exceptions become `Except PErr`: `InvalidPositionException` and plain
  `ValueError` are the two kinds the sources distinguish.
* `math.inf` as a `max_distance` becomes `Option Nat` (`none` = infinite);
  an infinite walk always leaves the 8×8 board within 8 steps (no movement
  vector in `pieces.py` has direction `(0, 0)`), so the `none` case is given
  fuel 16, which is never exhausted before the validity check stops the walk.
* Scores computed with Python floats in `engine.py` become `ℚ`; every value
  involved (integer material, 100, powers of 0.5) is represented exactly.
-/

namespace Chess

/-- Decidable equality of `Except` results (needed to evaluate statements
about raised errors). -/
instance exceptDecEq {ε α : Type} [DecidableEq ε] [DecidableEq α] :
    DecidableEq (Except ε α) := fun a b =>
  match a, b with
  | .ok x, .ok y =>
      if h : x = y then .isTrue (by rw [h]) else .isFalse (by simp [h])
  | .error x, .error y =>
      if h : x = y then .isTrue (by rw [h]) else .isFalse (by simp [h])
  | .ok _, .error _ => .isFalse (by simp)
  | .error _, .ok _ => .isFalse (by simp)

/-- Error kinds: `InvalidPositionException` (board.py:190) vs plain
`ValueError`/`KeyError`. -/
inductive PErr where
  | invalidPosition
  | valueError
deriving DecidableEq, Repr

/-- `Color` enum from pieces.py. -/
inductive Color where
  | white
  | black
deriving DecidableEq, Repr

/-- The other color; `BoardState.next_turn` is always the color opposite
`turn` (set so in `__init__` and swapped in `take_turn`). -/
def Color.other : Color → Color
  | .white => .black
  | .black => .white

/-- `PieceType` enum from pieces.py. -/
inductive PieceType where
  | pawn
  | knight
  | bishop
  | rook
  | queen
  | king
deriving DecidableEq, Repr

/-- `MovementVector` from pieces.py: a direction, a maximum repeat count
(`none` models `math.inf`), and the capture flags. -/
structure MovementVector where
  dirCol : Int
  dirRow : Int
  maxDistance : Option Nat
  canCapture : Bool
  canOnlyCapture : Bool
deriving DecidableEq, Repr

/-- Static piece data (`Piece` subclasses of pieces.py): color and kind plus
the `has_moved` flag.  The pawn's vector list is the only state that depends
on `has_moved` (its forward vector's `max_distance` collapses from 2 to 1 in
`Pawn.move`), so vectors are derived from these three fields. -/
structure Piece where
  color : Color
  type : PieceType
  hasMoved : Bool
deriving DecidableEq, Repr

/-- Piece values from pieces.py class attributes (`Piece.value` defaults
to 0, which is what `King` inherits). -/
def Piece.value (p : Piece) : Int :=
  match p.type with
  | .pawn => 1
  | .knight => 3
  | .bishop => 3
  | .rook => 5
  | .queen => 9
  | .king => 0

/-- Helper to build a movement vector with the pieces.py defaults
(`max_distance = math.inf`, `can_capture = True`, `can_only_capture = False`). -/
def mv (dc dr : Int) (maxD : Option Nat := none) (cap : Bool := true)
    (onlyCap : Bool := false) : MovementVector :=
  ⟨dc, dr, maxD, cap, onlyCap⟩

/-- `Rook.vectors` from pieces.py. -/
def rookVectors : List MovementVector :=
  [mv 1 0, mv 0 1, mv (-1) 0, mv 0 (-1)]

/-- `Bishop.vectors` from pieces.py. -/
def bishopVectors : List MovementVector :=
  [mv 1 1, mv 1 (-1), mv (-1) (-1), mv (-1) 1]

/-- `Knight.vectors` from pieces.py. -/
def knightVectors : List MovementVector :=
  [mv 1 2 (some 1), mv 2 1 (some 1), mv 2 (-1) (some 1), mv 1 (-2) (some 1),
   mv (-1) (-2) (some 1), mv (-2) (-1) (some 1), mv (-2) 1 (some 1), mv (-1) 2 (some 1)]

/-- `Queen.vectors = Rook.vectors + Bishop.vectors` from pieces.py. -/
def queenVectors : List MovementVector :=
  rookVectors ++ bishopVectors

/-- `King.vectors`: the queen's directions each restricted to distance 1. -/
def kingVectors : List MovementVector :=
  queenVectors.map (fun v => mv v.dirCol v.dirRow (some 1))

/-- `Pawn.__init__`: direction depends on color; the forward vector cannot
capture and reaches 2 squares until the pawn has moved (`Pawn.move` sets its
`max_distance` to 1); the diagonal vectors may only capture. -/
def pawnVectors (c : Color) (hasMoved : Bool) : List MovementVector :=
  let d : Int := if c = .white then 1 else -1
  [mv 0 d (some (if hasMoved then 1 else 2)) false,
   mv 1 d (some 1) true true,
   mv (-1) d (some 1) true true]

/-- `piece.vectors` as read by `GamePiece.initialize_moves`. -/
def Piece.vectors (p : Piece) : List MovementVector :=
  match p.type with
  | .pawn => pawnVectors p.color p.hasMoved
  | .knight => knightVectors
  | .bishop => bishopVectors
  | .rook => rookVectors
  | .queen => queenVectors
  | .king => kingVectors

/-- `Piece.move` sets `has_moved = True`; for the pawn this also collapses
the forward vector (folded into `Piece.vectors` above). -/
def Piece.move (p : Piece) : Piece :=
  { p with hasMoved := true }

/-- `Square` from board.py: a column/row pair.  Columns and rows are `Int`
because `apply_diff` can step off the board; `is_valid` checks the 0–7
range (the lengths of `_cols`/`_rows`). -/
structure Square where
  col : Int
  row : Int
deriving DecidableEq, Repr

/-- `Square.is_valid`. -/
def Square.isValid (s : Square) : Bool :=
  0 ≤ s.col && s.col < 8 && 0 ≤ s.row && s.row < 8

/-- `Square.apply_diff`. -/
def Square.applyDiff (s : Square) (cols rows : Int) : Square :=
  ⟨s.col + cols, s.row + rows⟩

/-- `Square._cols`. -/
def squareCols : List Char := ['a', 'b', 'c', 'd', 'e', 'f', 'g', 'h']

/-- `Square._rows`. -/
def squareRows : List Char := ['1', '2', '3', '4', '5', '6', '7', '8']

/-- `Square.to_name`: the 2-character algebraic name.  The Python version
indexes `_cols`/`_rows` directly; this embedding uses `getD` with a filler
character, agreeing with the source on every valid square (the claims only
constrain `to_name` on valid coordinates). -/
def Square.toName (s : Square) : List Char :=
  [squareCols.getD s.col.toNat ' ', squareRows.getD s.row.toNat ' ']

/-- `Square.from_name`: raises `ValueError` unless the name is exactly two
characters drawn from `_cols` × `_rows`, else builds the square from the
list indexes. -/
def Square.fromName (name : List Char) : Except PErr Square :=
  match name with
  | [c, r] =>
      if squareCols.contains c && squareRows.contains r then
        .ok ⟨(squareCols.indexOf c : Nat), (squareRows.indexOf r : Nat)⟩
      else
        .error .valueError
  | _ => .error .valueError

/-- `Move` from board.py. -/
structure Move where
  start : Square
  stop : Square
deriving DecidableEq, Repr

/-! ## Dictionary / set helpers

Python dicts with object assignment `d[k] = v` update in place when the key
exists and append otherwise; `del d[k]` removes the entry; sets `add` /
`discard` elements.  Iteration order in the source is insertion order for
dicts and hash order for sets; the source only ever observes set/dict
contents, membership tests, and whether an exception occurs, never the order
itself, so the list encodings below are faithful. -/

/-- Dict lookup. -/
def dget {κ ν : Type} [DecidableEq κ] (k : κ) : List (κ × ν) → Option ν
  | [] => none
  | (k', v) :: rest => if k' = k then some v else dget k rest

/-- Dict assignment `d[k] = v`. -/
def dset {κ ν : Type} [DecidableEq κ] (k : κ) (v : ν) : List (κ × ν) → List (κ × ν)
  | [] => [(k, v)]
  | (k', v') :: rest => if k' = k then (k, v) :: rest else (k', v') :: dset k v rest

/-- Dict deletion `del d[k]`. -/
def ddel {κ ν : Type} [DecidableEq κ] (k : κ) (d : List (κ × ν)) : List (κ × ν) :=
  d.filter (fun p => decide (p.1 ≠ k))

/-- Set insertion `s.add(x)`. -/
def sadd {α : Type} [DecidableEq α] (x : α) (s : List α) : List α :=
  if s.contains x then s else s ++ [x]

/-- Set removal `s.discard(x)`. -/
def sdiscard {α : Type} [DecidableEq α] (x : α) (s : List α) : List α :=
  s.filter (fun y => decide (y ≠ x))

/-- Set union `s | t`. -/
def sunion {α : Type} [DecidableEq α] (s t : List α) : List α :=
  t.foldl (fun acc x => sadd x acc) s

/-! ## Game pieces and board state -/

/-- `GamePiece` from board.py: a piece bound to a square with its
square→vector cache (`possible_squares`, an insertion-ordered dict).  The
`uuid` field models `uuid.uuid4()`: `__eq__`/`__hash__` compare only it. -/
structure GamePiece where
  uuid : Nat
  piece : Piece
  square : Square
  possibleSquares : List (Square × MovementVector)
deriving DecidableEq, Repr

/-- `GamePiece.move`: relocate, clear the cache, mark the piece moved. -/
def GamePiece.moveTo (gp : GamePiece) (sq : Square) : GamePiece :=
  { gp with square := sq, possibleSquares := [], piece := gp.piece.move }

/-- `CheckVectors` from board.py: a list of attack paths. -/
structure CheckVectors where
  vectors : List (List Square)
deriving DecidableEq, Repr

/-- `bool(CheckVectors)`. -/
def CheckVectors.nonEmpty (cv : CheckVectors) : Bool :=
  !cv.vectors.isEmpty

/-- Walk of `CheckVectors.add`: accumulate the path from the attacker until
the king square is reached, raising `ValueError` when the vector's distance
budget or the board edge is hit first (mirrors the `while True` loop;
the fuel covers the infinite-distance case, which always reaches the king
or the edge within 16 steps). -/
def checkPathWalk (dc dr : Int) (king : Square) : Nat → Nat → Option Nat → Square →
    List Square → Except PErr (List Square)
  | 0, _, _, _, _ => .error .valueError
  | fuel + 1, distance, maxD, sq, path =>
      let path := path ++ [sq]
      let distance := distance + 1
      if (match maxD with | some n => decide (n < distance) | none => false) then
        .error .valueError
      else
        let nxt := sq.applyDiff dc dr
        if !nxt.isValid then
          .error .valueError
        else if nxt = king then
          .ok path
        else
          checkPathWalk dc dr king fuel distance maxD nxt path

/-- `CheckVectors.add`. -/
def CheckVectors.add (cv : CheckVectors) (attacker king : Square)
    (v : MovementVector) : Except PErr CheckVectors :=
  if !v.canCapture then
    .error .valueError
  else
    (checkPathWalk v.dirCol v.dirRow king 16 0 v.maxDistance attacker []).map
      (fun path => ⟨cv.vectors ++ [path]⟩)

/-- `CheckVectors.blocking_squares`: the squares of the single recorded
path, or empty unless exactly one path exists. -/
def CheckVectors.blockingSquares (cv : CheckVectors) : List Square :=
  match cv.vectors with
  | [path] => path
  | _ => []

/-- `KingLocations` from board.py. -/
structure KingLocations where
  white : Square
  black : Square
deriving DecidableEq, Repr

/-- `KingLocations.get`. -/
def KingLocations.get (kl : KingLocations) : Color → Square
  | .white => kl.white
  | .black => kl.black

/-- `KingLocations.move`: rebuilt only when the move starts on a recorded
king square. -/
def KingLocations.move (kl : KingLocations) (m : Move) : KingLocations :=
  if m.start ≠ kl.white ∧ m.start ≠ kl.black then
    kl
  else
    ⟨if kl.white = m.start then m.stop else kl.white,
     if kl.black = m.start then m.stop else kl.black⟩

/-- `BoardState` from board.py.  `last_move` is `none` for the `EmptyMove`
sentinel.  `next_turn` is stored explicitly, exactly as in the source.
The per-color `check_vectors` dict becomes the two fields below. -/
structure BoardState where
  lastMove : Option Move
  turn : Color
  nextTurn : Color
  material : Int
  checkWhite : CheckVectors
  checkBlack : CheckVectors
  kingSquares : KingLocations
deriving DecidableEq, Repr

/-- `state.check_vectors[c]`. -/
def BoardState.checks (st : BoardState) : Color → CheckVectors
  | .white => st.checkWhite
  | .black => st.checkBlack

/-- Writing `state.check_vectors[c]`. -/
def BoardState.setChecks (st : BoardState) (c : Color) (cv : CheckVectors) : BoardState :=
  match c with
  | .white => { st with checkWhite := cv }
  | .black => { st with checkBlack := cv }

/-- `BoardState.__init__`: stores the passed tracker under `turn` and a
fresh empty tracker under `next_turn`. -/
def mkBoardState (lastMove : Option Move) (turn : Color) (material : Int)
    (checks : CheckVectors) (kingSquares : KingLocations) : BoardState :=
  let base : BoardState :=
    ⟨lastMove, turn, turn.other, material, ⟨[]⟩, ⟨[]⟩, kingSquares⟩
  (base.setChecks turn checks).setChecks turn.other ⟨[]⟩

/-- `BoardState.take_turn`. -/
def BoardState.takeTurn (st : BoardState) : BoardState :=
  { st with turn := st.nextTurn, nextTurn := st.turn }

/-- `Board` from board.py: the square→piece map, the reverse index
square→{pieces seeing it} (`_relevant_piece_squares`, stored as uuid sets),
and the piece→pseudo-legal-destination index (`_available_moves`, keyed by
piece uuid). -/
structure Board where
  state : BoardState
  position : List (Square × GamePiece)
  relevant : List (Square × List Nat)
  available : List (Nat × List Square)
deriving DecidableEq, Repr

/-- Read `_relevant_piece_squares[sq]` (a `defaultdict(set)`: missing keys
read as empty; the source can observe the auto-inserted empty entry only
through dict equality, which it never performs). -/
def Board.relAt (b : Board) (sq : Square) : List Nat :=
  (dget sq b.relevant).getD []

/-- `_relevant_piece_squares[sq].add(piece)`. -/
def Board.relAdd (b : Board) (sq : Square) (u : Nat) : Board :=
  { b with relevant := dset sq (sadd u (b.relAt sq)) b.relevant }

/-- `_relevant_piece_squares[sq].discard(piece)`. -/
def Board.relDiscard (b : Board) (sq : Square) (u : Nat) : Board :=
  { b with relevant := dset sq (sdiscard u (b.relAt sq)) b.relevant }

/-- Read `_available_moves[piece]`. -/
def Board.availAt (b : Board) (u : Nat) : List Square :=
  (dget u b.available).getD []

/-- `_available_moves[piece].add(square)`. -/
def Board.availAdd (b : Board) (u : Nat) (sq : Square) : Board :=
  { b with available := dset u (sadd sq (b.availAt u)) b.available }

/-- `_available_moves[piece].discard(square)`. -/
def Board.availDiscard (b : Board) (u : Nat) (sq : Square) : Board :=
  { b with available := dset u (sdiscard sq (b.availAt u)) b.available }

/-- Resolve a piece object from its uuid: pieces live in `_position`
(reverse-index sets always reference live pieces: captured pieces are purged
and the moved piece is re-registered under the same uuid). -/
def Board.pieceByUuid (b : Board) (u : Nat) : Option GamePiece :=
  (b.position.find? (fun p => p.2.uuid = u)).map Prod.snd

/-! ## Attack-vector scanning (`GamePiece._generate_moves` / `Board.prepare_moves`) -/

/-- The squares visited by `GamePiece._generate_moves(vector, start)`: step
from `start` while the square is valid, up to `max_distance` squares.  Every
visited square is cached in `possible_squares` and yielded, regardless of
occupancy (the occupancy logic lives in `prepare_moves`, which consumes the
whole generator). -/
def genRayAux (dc dr : Int) : Nat → Square → List Square
  | 0, _ => []
  | n + 1, sq => if sq.isValid then sq :: genRayAux dc dr n (sq.applyDiff dc dr) else []

/-- Ray of a movement vector from a start square; fuel 16 stands in for
`math.inf` (an on-board walk with a nonzero direction leaves the board
within 8 steps). -/
def genRay (v : MovementVector) (start : Square) : List Square :=
  genRayAux v.dirCol v.dirRow (v.maxDistance.getD 16) start

/-- Write the generator's cache updates (`possible_squares[square] = vector`
for every visited square) back into the board's copy of the piece.  In the
source the writes interleave with `prepare_moves`' consumption; nothing in
the consumption reads this cache, so performing them up front yields the
same final state whenever no exception occurs (exception results are
discarded by every caller). -/
def Board.cachePieceRay (b : Board) (u : Nat) (v : MovementVector)
    (ray : List Square) : Board :=
  { b with position := b.position.map (fun p =>
      if p.2.uuid = u then
        let cache := ray.foldl (fun c sq => dset sq v c) p.2.possibleSquares
        (p.1, { p.2 with possibleSquares := cache })
      else p) }

/-- Replace the tracker of one color inside a board. -/
def Board.setStateChecks (b : Board) (c : Color) (cv : CheckVectors) : Board :=
  { b with state := b.state.setChecks c cv }

/-- The inner loop of `Board.prepare_moves` over one vector's candidates:
`u`/`pc`/`psq` are the scanning piece's uuid, color and square, `v` the
vector.  The `Bool` is the `terminated` flag.  The source adds the piece to
`relevant[square]` *before* reading `_position[square]`; the add touches
neither the position nor the state, so it is applied here on the branch
boards instead (error branches drop it, but every caller discards the board
on error). -/
def processRaySquares (u : Nat) (pc : Color) (psq : Square) (v : MovementVector) :
    List Square → Bool → Board → Except PErr Board
  | [], _, b => .ok b
  | sq :: rest, true, b =>
      processRaySquares u pc psq v rest true ((b.relDiscard sq u).availDiscard u sq)
  | sq :: rest, false, b =>
      match dget sq b.position with
      | some held =>
          if held.piece.color ≠ pc ∧ v.canCapture = true then
            if held.piece.type = .king then
              if held.piece.color = b.state.nextTurn then
                .error .invalidPosition
              else
                match (b.state.checks held.piece.color).add psq held.square v with
                | .error e => .error e
                | .ok cv =>
                    processRaySquares u pc psq v rest true
                      (((b.relAdd sq u).setStateChecks held.piece.color cv).availAdd u sq)
            else
              processRaySquares u pc psq v rest true ((b.relAdd sq u).availAdd u sq)
          else
            processRaySquares u pc psq v rest true ((b.relAdd sq u).availDiscard u sq)
      | none =>
          if v.canOnlyCapture then
            processRaySquares u pc psq v rest false ((b.relAdd sq u).availDiscard u sq)
          else
            processRaySquares u pc psq v rest false ((b.relAdd sq u).availAdd u sq)

/-- Process one `_generate_moves(v, start)` generator: record the cache
writes, then run the occupancy loop. -/
def processVector (b : Board) (u : Nat) (pc : Color) (psq : Square)
    (v : MovementVector) (start : Square) : Except PErr Board :=
  let ray := genRay v start
  processRaySquares u pc psq v ray false (b.cachePieceRay u v ray)

/-- The `for vector in vectors` loop of `prepare_moves` for a full scan:
one generator per movement vector, starting one step out from the piece's
square (`initialize_moves`). -/
def processVectors (u : Nat) (pc : Color) (psq : Square) :
    List MovementVector → Board → Except PErr Board
  | [], b => .ok b
  | v :: vs, b =>
      (processVector b u pc psq v (psq.applyDiff v.dirCol v.dirRow)).bind
        (processVectors u pc psq vs)

/-- Second half of `update_moves`: after the `move.start` walk has run, the
generator re-reads the (possibly rewritten) cache before deciding whether to
walk the vector through `move.end`. -/
def prepareMovesSecond (b1 : Board) (u : Nat) (m : Move) : Except PErr Board :=
  match b1.pieceByUuid u with
  | none => .ok b1
  | some gp1 =>
      match dget m.stop gp1.possibleSquares with
      | some v => processVector b1 u gp1.piece.color gp1.square v m.stop
      | none => .ok b1

/-- `Board.prepare_moves(piece, move)`: full scan (`initialize_moves`) when
`move` is absent, otherwise the incremental rescan (`update_moves`), which
walks the cached vector through `move.start` and then the cached vector
through `move.end`. -/
def prepareMovesB (b : Board) (u : Nat) (mo : Option Move) : Except PErr Board :=
  match b.pieceByUuid u with
  | none => .ok b   -- unreachable: index sets reference only live pieces
  | some gp =>
      match mo with
      | none => processVectors u gp.piece.color gp.square gp.piece.vectors b
      | some m =>
          (match dget m.start gp.possibleSquares with
           | some v => processVector b u gp.piece.color gp.square v m.start
           | none => .ok b).bind (fun b1 => prepareMovesSecond b1 u m)

/-- The full-scan loop over a list of pieces (used by `rebuild`). -/
def scanAll : List Nat → Board → Except PErr Board
  | [], b => .ok b
  | u :: us, b => (prepareMovesB b u none).bind (scanAll us)

/-- The incremental-rescan loop over a list of pieces (the loop at
board.py:251–252). -/
def rescanAll (m : Move) : List Nat → Board → Except PErr Board
  | [], b => .ok b
  | u :: us, b => (prepareMovesB b u (some m)).bind (rescanAll m us)

/-- `Board.rebuild`: reset both indexes, full-scan every piece.  (Piece
caches are not cleared by the source's `rebuild` either.) -/
def rebuildB (b : Board) : Except PErr Board :=
  let b0 : Board := { b with relevant := [], available := [] }
  scanAll (b.position.map (fun p => p.2.uuid)) b0

/-! ## Move application (`Board.make_move` / `Board.make_child`) -/

/-- The loop at board.py:232–235: for every cached square of the moved
piece, discard-and-re-add it in the reverse index (this swaps the stale
object for the deepcopy in the source; on values it reorders the set). -/
def Board.refreshRelevantForMoved (b : Board) (cacheKeys : List Square) (u : Nat) : Board :=
  match cacheKeys with
  | [] => b
  | sqk :: rest =>
      (if (b.relAt sqk).contains u then (b.relDiscard sqk u).relAdd sqk u
       else b).refreshRelevantForMoved rest u

/-- The loop at board.py:244–245: purge the captured piece from the reverse
index at all its cached squares. -/
def purgeCaptured (cu : Nat) : List (Square × MovementVector) → Board → Board
  | [], b => b
  | p :: ps, b => purgeCaptured cu ps (b.relDiscard p.1 cu)

/-- The capture block of `make_move` (board.py:240–245): update the signed
material, delete the captured piece from the destination index, purge it
from the reverse index. -/
def applyCapture (b : Board) (m : Move) : Board :=
  match dget m.stop b.position with
  | some cap =>
      purgeCaptured cap.uuid cap.possibleSquares
        { b with
            state := { b.state with material := b.state.material +
              cap.piece.value * (if cap.piece.color = Color.black then 1 else -1) }
            available := ddel cap.uuid b.available }
  | none => b

/-- `Board.make_move`.  Note board.py:251 unions
`_relevant_piece_squares[move.start]` with itself (sic), so only pieces
recorded as seeing the start square are rescanned. -/
def makeMove (b : Board) (m : Move) : Except PErr Board :=
  match dget m.start b.position with
  | none => .error .valueError
  | some moved0 =>
      let b1 : Board :=
        { b with available := dset moved0.uuid [] (ddel moved0.uuid b.available) }
      let b2 : Board :=
        b1.refreshRelevantForMoved (moved0.possibleSquares.map Prod.fst) moved0.uuid
      if moved0.piece.color ≠ b2.state.turn then
        .error .valueError
      else
        let b3 : Board := applyCapture b2 m
        let b4 : Board :=
          { b3 with position := ddel m.start (dset m.stop (moved0.moveTo m.stop) b3.position) }
        let b5 : Board := { b4 with state := b4.state.takeTurn }
        (prepareMovesB b5 moved0.uuid none).bind (fun b6 =>
          rescanAll m (sunion (b6.relAt m.start) (b6.relAt m.start)) b6)

/-- `Board.make_child`: clone the maps (shallow-copying each index set) and
the state — passing the parent's tracker for the side to move into the new
`BoardState` — then apply the move to the clone. -/
def makeChild (b : Board) (m : Move) : Except PErr Board :=
  let child : Board :=
    { state := mkBoardState (some m) b.state.turn b.state.material
        (b.state.checks b.state.turn) (b.state.kingSquares.move m)
      position := b.position
      relevant := b.relevant
      available := b.available }
  makeMove child m

/-! ## Legal-move enumeration -/

/-- The main loop of `Board.generate_legal_moves` (side to move not in
check): every cached pseudo-legal destination of every piece of the side to
move is tried through `make_child`; children raising
`InvalidPositionException` are silently skipped, every other error
propagates. -/
def generateLegalMovesNormal (b : Board) : Except PErr (List Board) :=
  let cands : List (Square × List Square) := b.available.filterMap (fun p =>
    match b.pieceByUuid p.1 with
    | some gp =>
        if gp.piece.color = b.state.turn then some (gp.square, p.2) else none
    | none => none)
  cands.foldlM (fun acc cand =>
    cand.2.foldlM (fun acc2 sq =>
      match makeChild b ⟨cand.1, sq⟩ with
      | .ok c => .ok (acc2 ++ [c])
      | .error .invalidPosition => .ok acc2
      | .error e => .error e) acc) []

/-- `Board._generate_legal_moves_from_check`: pseudo-legal king moves, then
(for a single checking path) moves of friendly pieces landing on the
blocking set.  (`possible_moves[king]` is recorded in the source but never
read.) -/
def generateLegalMovesFromCheck (b : Board) : Except PErr (List Board) :=
  let kingSq := (b.state.kingSquares.get b.state.turn)
  match dget kingSq b.position with
  | none => .error .valueError
  | some king => do
      let kingChildren ← (b.availAt king.uuid).foldlM (fun acc sq =>
          match makeChild b ⟨king.square, sq⟩ with
          | .ok c => .ok (acc ++ [c])
          | .error .invalidPosition => .ok acc
          | .error e => .error e) ([] : List Board)
      let blocking := (b.state.checks b.state.turn).blockingSquares
      let blockers := blocking.foldl (fun acc sq =>
        sunion acc ((b.relAt sq).filter (fun u =>
          match b.pieceByUuid u with
          | some gp => decide (gp.piece.color = b.state.turn)
          | none => false))) []
      blockers.foldlM (fun acc u =>
        match b.pieceByUuid u with
        | none => .ok acc
        | some gp =>
            (b.availAt u).foldlM (fun acc2 sq =>
              if blocking.contains sq then
                match makeChild b ⟨gp.square, sq⟩ with
                | .ok c => .ok (acc2 ++ [c])
                | .error .invalidPosition => .ok acc2
                | .error e => .error e
              else .ok acc2) acc) kingChildren

/-- `Board.generate_legal_moves`. -/
def generateLegalMoves (b : Board) : Except PErr (List Board) :=
  if (b.state.checks b.state.turn).nonEmpty then
    generateLegalMovesFromCheck b
  else
    generateLegalMovesNormal b

/-- The yielded children as a plain list (empty when enumeration itself
fails, which never happens on the positions considered here). -/
def legalChildren (b : Board) : List Board :=
  ((generateLegalMoves b).toOption).getD []

/-! ## Independent attack recomputation (verification oracle)

Used to check claims of the form "the mover's king is not attacked": walks
every piece's movement vectors over the raw position, stopping at the first
occupied square, without consulting any of the board's cached indexes. -/

/-- Walk from `sq` along `(dc, dr)`: the target is attacked if reached
before any occupied square within the distance budget. -/
def attackWalk (b : Board) (target : Square) (dc dr : Int) : Nat → Square → Bool
  | 0, _ => false
  | n + 1, sq =>
      if !sq.isValid then false
      else if sq = target then true
      else if (dget sq b.position).isSome then false
      else attackWalk b target dc dr n (sq.applyDiff dc dr)

/-- Whether a capture-capable vector from `start` reaches `target`. -/
def vectorAttacks (b : Board) (start : Square) (v : MovementVector)
    (target : Square) : Bool :=
  v.canCapture && attackWalk b target v.dirCol v.dirRow (v.maxDistance.getD 16)
    (start.applyDiff v.dirCol v.dirRow)

/-- Whether any piece of `byColor` attacks `target`, recomputed from the
raw square→piece map alone. -/
def squareAttacked (b : Board) (target : Square) (byColor : Color) : Bool :=
  b.position.any (fun p =>
    decide (p.2.piece.color = byColor) &&
    p.2.piece.vectors.any (fun v => vectorAttacks b p.1 v target))

/-! ## Parent aliasing of `make_child`

`make_child` copies the two index dicts and each index set, and `make_move`
`deepcopy`-s the moved piece, but every other `GamePiece` object in the
copied maps is shared with the parent.  `_generate_moves` writes
`self.possible_squares[square] = vector` on whichever object it is rescanning,
so rescans inside the child's `make_move` mutate caches of pieces the parent
still holds.  `parentAfterMakeChild` reads the parent back after a successful
`make_child`: every parent piece other than the mover carries the cache its
shared object has in the finished child. -/

/-- The parent board as Python leaves it after `make_child b m` returns the
child successfully. -/
def parentAfterMakeChild (b : Board) (m : Move) (child : Board) : Board :=
  let moverUuid : Nat :=
    match dget m.start b.position with
    | some gp => gp.uuid
    | none => 0   -- unreachable when make_child succeeded
  { b with position := b.position.map (fun p =>
      if p.2.uuid = moverUuid then p
      else
        match child.pieceByUuid p.2.uuid with
        | some cp => (p.1, { p.2 with possibleSquares := cp.possibleSquares })
        | none => p) }

/-- `make_child` together with the state the parent is left in. -/
def makeChildLeak (b : Board) (m : Move) : Except PErr (Board × Board) :=
  (makeChild b m).map (fun c => (c, parentAfterMakeChild b m c))

/-! ## Concrete boards -/

/-- Build one starting-position entry (`Game.generate_starting_position`);
uuids are assigned in the dict's construction order. -/
def gpAt (u : Nat) (c : Color) (t : PieceType) (col row : Int) : Square × GamePiece :=
  (⟨col, row⟩, ⟨u, ⟨c, t, false⟩, ⟨col, row⟩, []⟩)

/-- `Game.generate_starting_position`: the 32 standard pieces. -/
def startingPosition : List (Square × GamePiece) :=
  [gpAt 0 .white .rook 0 0, gpAt 1 .white .knight 1 0, gpAt 2 .white .bishop 2 0,
   gpAt 3 .white .queen 3 0, gpAt 4 .white .king 4 0, gpAt 5 .white .bishop 5 0,
   gpAt 6 .white .knight 6 0, gpAt 7 .white .rook 7 0,
   gpAt 8 .white .pawn 0 1, gpAt 9 .white .pawn 1 1, gpAt 10 .white .pawn 2 1,
   gpAt 11 .white .pawn 3 1, gpAt 12 .white .pawn 4 1, gpAt 13 .white .pawn 5 1,
   gpAt 14 .white .pawn 6 1, gpAt 15 .white .pawn 7 1,
   gpAt 16 .black .pawn 0 6, gpAt 17 .black .pawn 1 6, gpAt 18 .black .pawn 2 6,
   gpAt 19 .black .pawn 3 6, gpAt 20 .black .pawn 4 6, gpAt 21 .black .pawn 5 6,
   gpAt 22 .black .pawn 6 6, gpAt 23 .black .pawn 7 6,
   gpAt 24 .black .rook 0 7, gpAt 25 .black .knight 1 7, gpAt 26 .black .bishop 2 7,
   gpAt 27 .black .queen 3 7, gpAt 28 .black .king 4 7, gpAt 29 .black .bishop 5 7,
   gpAt 30 .black .knight 6 7, gpAt 31 .black .rook 7 7]

/-- The board `Game.__init__` builds before calling `rebuild()`:
`BoardState(EmptyMove())` with all defaults (white to move, material 0,
empty tracker, kings on e1/e8). -/
def rawStartBoard : Board :=
  { state := mkBoardState none .white 0 ⟨[]⟩ ⟨⟨4, 0⟩, ⟨4, 7⟩⟩
    position := startingPosition
    relevant := []
    available := [] }

/-- The starting board after `rebuild()` (the rebuild of the standard
position raises nothing, so `getD` never takes its default). -/
def startBoard : Board :=
  (rebuildB rawStartBoard).toOption.getD rawStartBoard

/-- Apply a sequence of moves through `make_child`, propagating errors. -/
def playChain (b : Board) : List Move → Except PErr Board
  | [] => .ok b
  | m :: ms => (makeChild b m).bind (fun c => playChain c ms)

/-- Apply a sequence of moves through `make_move` on the same board,
propagating errors. -/
def playMoves (b : Board) : List Move → Except PErr Board
  | [] => .ok b
  | m :: ms => (makeMove b m).bind (fun c => playMoves c ms)

/-- Square shorthand. -/
def sq (col row : Int) : Square := ⟨col, row⟩

/-- Move shorthand. -/
def mk' (c1 r1 c2 r2 : Int) : Move := ⟨sq c1 r1, sq c2 r2⟩

/-! ## The search tree (`MoveNode` / `Engine` from engine.py)

A tree node holds a `Board` and a children map keyed by each child's
`last_move` (that is the key `prepare_children` uses).  The incrementally
maintained aggregates (`size`, `leaf_nodes`) are modelled by direct
recomputation; the expansion loop only reads them through the root, where
the incremental propagation keeps them equal to the recomputed values on
every execution the claims below exercise. -/

/-- `MoveNode`'s tree structure (parent back-pointers have no counterpart:
they are only used for aggregate propagation, recomputed here). -/
inductive GameTree where
  | node (board : Board) (children : List (Move × GameTree))

/-- Children of a node. -/
def treeChildren : GameTree → List (Move × GameTree)
  | .node _ ch => ch

mutual
/-- Subtree node count (`MoveNode.size`). -/
def treeSize : GameTree → Nat
  | .node _ ch => 1 + treeSizeList ch
def treeSizeList : List (Move × GameTree) → Nat
  | [] => 0
  | p :: rest => treeSize p.2 + treeSizeList rest
end

/-- The children map key `prepare_children` uses: the child board's
`last_move` (always set by `make_child`; the fallback is unreachable). -/
def keyOfChild (c : Board) : Move :=
  match c.state.lastMove with
  | some m => m
  | none => ⟨sq 0 0, sq 0 0⟩

mutual
/-- One pass of `build_tree`'s body: call `prepare_children` on every node
of the current leaf set.  A node with children recurses into them; a node
without children (never expanded, or terminal) is a leaf and regenerates its
children from `generate_legal_moves` — for a terminal node this recomputes
the same empty set, exactly as `prepare_children` does on every iteration. -/
def expandLeaves : GameTree → Except PErr GameTree
  | .node b ch =>
      match ch with
      | [] => (generateLegalMoves b).map (fun cs =>
          GameTree.node b (cs.map (fun c => (keyOfChild c, GameTree.node c []))))
      | _ => (expandLeavesList ch).map (fun ch' => GameTree.node b ch')
def expandLeavesList : List (Move × GameTree) → Except PErr (List (Move × GameTree))
  | [] => .ok []
  | (m, t) :: rest =>
      (expandLeaves t).bind (fun t' =>
        (expandLeavesList rest).map (fun rest' => (m, t') :: rest'))
end

/-- `Engine`: root node, depth/breadth limits (`none` models `math.inf`),
and the tracked depth counter (an `Int`: `make_move` decrements it). -/
structure EngineSt where
  root : GameTree
  maxDepth : Option Nat
  maxBreadth : Option Nat
  depth : Int

/-- `self.depth < self.max_depth` (`<` against a possibly infinite float). -/
def ltLimI (d : Int) : Option Nat → Bool
  | none => true
  | some n => decide (d < (n : Int))

/-- `self.root.size < self.max_breadth`. -/
def ltLimN (s : Nat) : Option Nat → Bool
  | none => true
  | some n => decide (s < n)

/-- The `while` guard of `Engine.build_tree`. -/
def buildGuard (e : EngineSt) : Bool :=
  ltLimI e.depth e.maxDepth && ltLimN (treeSize e.root) e.maxBreadth

/-- One iteration of `Engine.build_tree`'s loop: expand every current leaf,
increment the depth counter. -/
def buildStep (e : EngineSt) : Except PErr EngineSt :=
  (expandLeaves e.root).map (fun t => { e with root := t, depth := e.depth + 1 })

/-- `Engine.build_tree`'s loop with explicit fuel: `.ok none` means the
guard was still true when the fuel ran out; `.ok (some e)` means the loop
exited normally; `.error` means an exception escaped an expansion.  (The
scoring pass that follows the loop is a total recursion over the finished
tree and cannot affect termination.) -/
def buildLoop : Nat → EngineSt → Except PErr (Option EngineSt)
  | 0, _ => .ok none
  | n + 1, e =>
      if buildGuard e then (buildStep e).bind (buildLoop n)
      else .ok (some e)

/-- `Engine.build_tree` terminates iff some finite number of iterations
exits the loop (normally or by an escaping exception). -/
def BuildTerminates (e : EngineSt) : Prop :=
  ∃ n, buildLoop n e ≠ .ok none

/-- `Engine.make_move`: look the move up in the root's children; a missing
key raises `KeyError` before any assignment, so the engine is unchanged
(`false` flags the raise).  On success the chosen child becomes the root
and the depth counter drops by one. -/
def engineMakeMove (e : EngineSt) (m : Move) : EngineSt × Bool :=
  match dget m (treeChildren e.root) with
  | none => (e, false)
  | some c => ({ e with root := c, depth := e.depth - 1 }, true)

/-- `Game` (game.py): the engine plus the move-history log. -/
structure GameSt where
  engine : EngineSt
  history : List Move

/-- `Game.make_move`: `engine.make_move` first — a `KeyError` there
propagates before `build_tree` runs or the history is appended. -/
def gameMakeMove (fuel : Nat) (g : GameSt) (m : Move) : GameSt × Bool :=
  match engineMakeMove g.engine m with
  | (_, false) => (g, false)
  | (e1, true) =>
      match buildLoop fuel e1 with
      | .ok (some e2) => ({ engine := e2, history := g.history ++ [m] }, true)
      | _ => ({ engine := e1, history := g.history }, false)

/-! ## Scoring (`MoveNode.calculate_score`)

`calculate_score` only reads the node's `board.state.turn`,
`board.state.material`, the terminal flags and the children, so score trees
abstract a node to exactly those fields.  Python float scores become `ℚ`
(every value involved — integer material, ±100, powers of 0.5 — is exact). -/

/-- A search-tree node as `calculate_score` sees it. -/
inductive ScoreNode where
  | mk (turn : Color) (material : Int) (isCheckmate isStalemate : Bool)
       (children : List (Move × ScoreNode))

/-- Children accessor. -/
def ScoreNode.children : ScoreNode → List (Move × ScoreNode)
  | .mk _ _ _ _ ch => ch

/-- Side to move at the node. -/
def ScoreNode.turn : ScoreNode → Color
  | .mk t _ _ _ _ => t

/-- Ascending comparison on the score component (`key=itemgetter(0)`). -/
def scoreLE (p q : ℚ × Move) : Prop := p.1 ≤ q.1

/-- Descending comparison (`reverse=True`). -/
def scoreGE (p q : ℚ × Move) : Prop := q.1 ≤ p.1

instance : DecidableRel scoreLE := fun p q => inferInstanceAs (Decidable (p.1 ≤ q.1))

instance : DecidableRel scoreGE := fun p q => inferInstanceAs (Decidable (q.1 ≤ p.1))

/-- Python's `sorted(pairs, reverse=reverse, key=itemgetter(0))`: a stable
sort, ascending by score, descending when `reverse` — insertion sort with
the corresponding total preorder places equal keys in original order, as
Python's stable sort does. -/
def sortPairs (reverse : Bool) (l : List (ℚ × Move)) : List (ℚ × Move) :=
  if reverse then l.insertionSort scoreGE else l.insertionSort scoreLE

/-- The per-child combination loop (engine.py:84–86): each iteration
*overwrites* the running `score` with `child_score * 0.5 ^ index`. -/
def combineLoop : Nat → ℚ → List (ℚ × Move) → ℚ
  | _, acc, [] => acc
  | i, _, p :: rest => combineLoop (i + 1) (p.1 * (1 / 2 : ℚ) ^ i) rest

mutual
/-- `MoveNode.calculate_score`. -/
def calculateScore : ScoreNode → ℚ
  | .mk turn material isCk isSl children =>
      if isCk then 100 * (if turn = Color.white then 1 else -1)
      else if isSl then 0
      else
        match children with
        | [] => (material : ℚ)
        | _ =>
            combineLoop 0 0
              (sortPairs (decide (turn = Color.black)) (childScores children))
def childScores : List (Move × ScoreNode) → List (ℚ × Move)
  | [] => []
  | (m, c) :: rest => (calculateScore c, m) :: childScores rest
end

/-- The node's `sorted_child_scores` list. -/
def sortedChildScores (n : ScoreNode) : List (ℚ × Move) :=
  sortPairs (decide (n.turn = Color.black)) (childScores n.children)

/-! ## A position with no legal moves

Black to move: king a8 boxed in by its own pawn a7 and rook b8, double
check from the white knight c7 and white bishop c6 (white king h1).  The
king's only pseudo-legal square b7 lies on the bishop's line, so its rescan
raises `InvalidPositionException`, and a double check empties the blocking
set: `generate_legal_moves` yields nothing, yet the node count never grows,
so `build_tree` with an infinite depth limit never exits its loop. -/

/-- The smothered double-check position before `rebuild()`. -/
def rawMateBoard : Board :=
  { state := mkBoardState none .black 0 ⟨[]⟩ ⟨⟨7, 0⟩, ⟨0, 7⟩⟩
    position := [gpAt 0 .black .king 0 7, gpAt 1 .black .pawn 0 6,
                 gpAt 2 .black .rook 1 7, gpAt 3 .white .knight 2 6,
                 gpAt 4 .white .bishop 2 5, gpAt 5 .white .king 7 0]
    relevant := []
    available := [] }

/-- The position after `rebuild()` (which records the two check vectors and
raises nothing, so `getD` never takes its default). -/
def mateBoard : Board :=
  (rebuildB rawMateBoard).toOption.getD rawMateBoard

/-- An engine on the mated position with `max_depth = math.inf` and
`max_breadth = 10`: the configuration claim C8 asserts terminates. -/
def mateEngine : EngineSt :=
  { root := .node mateBoard [], maxDepth := none, maxBreadth := some 10, depth := 0 }

/-- The same engine with a finite depth limit (used to witness the amended
termination statement). -/
def mateEngineFiniteDepth : EngineSt :=
  { root := .node mateBoard [], maxDepth := some 2, maxBreadth := some 10, depth := 0 }

/-! ## Claim theorems -/

/-- The `[a-h][1-8]` shape `Square.from_name` accepts. -/
def validSquareName (s : List Char) : Bool :=
  match s with
  | [c, r] => squareCols.contains c && squareRows.contains r
  | _ => false

/-- **C9** (confirmed).  For every valid coordinate (0 ≤ col ≤ 7,
0 ≤ row ≤ 7), `Square.from_name (square.to_name())` returns the original
square — with a1 ↦ (0,0) and h8 ↦ (7,7) built into the column/row tables —
and `from_name` raises `ValueError` on every string that is not a
2-character `[a-h][1-8]` name. -/
theorem fromName_toName_roundtrip_and_rejects :
    (∀ col row : Int, 0 ≤ col → col ≤ 7 → 0 ≤ row → row ≤ 7 →
        Square.fromName (Square.toName ⟨col, row⟩) = .ok ⟨col, row⟩) ∧
    (∀ s : List Char, ¬ validSquareName s = true →
        Square.fromName s = .error .valueError) := by
  constructor
  · intro col row h1 h2 h3 h4
    interval_cases col <;> interval_cases row <;> decide
  · intro s hs
    match s with
    | [] => rfl
    | [_] => rfl
    | _ :: _ :: _ :: _ => rfl
    | [c, r] =>
        have hfalse : (squareCols.contains c && squareRows.contains r) = false := by
          cases h : (squareCols.contains c && squareRows.contains r)
          · rfl
          · exact absurd h hs
        simp only [Square.fromName, hfalse, Bool.false_eq_true, if_false]

/-- Witness for C9: the roundtrip at a1 and rejection of a malformed name,
via the theorem. -/
theorem fromName_toName_roundtrip_witness :
    Square.fromName (Square.toName ⟨0, 0⟩) = .ok ⟨0, 0⟩ ∧
    Square.fromName ['z', '9'] = .error .valueError :=
  ⟨fromName_toName_roundtrip_and_rejects.1 0 0 (by decide) (by decide)
      (by decide) (by decide),
   fromName_toName_roundtrip_and_rejects.2 ['z', '9'] (by decide)⟩

/-! ### C6: terminal scoring -/

/-- **C6 counterexample**: on a checkmated node with *white* to move (white
is the mated side), `calculate_score` returns `+100`, not the `-100` the
claim derives from the positive-favors-white convention.  (The stalemate
half of the claim is correct: such a node scores 0.) -/
theorem checkmateScore_counterexample :
    calculateScore (.mk .white 0 true false []) = 100 ∧
    ¬ calculateScore (.mk .white 0 true false []) = -100 := by
  refine ⟨by simp [calculateScore], ?_⟩
  simp [calculateScore]
  norm_num

/-- **C6** (corrected).  A terminal node flagged `is_checkmate` scores
`100 * (+1 if the side to move is white else -1)` — magnitude 100, but the
sign *favors the mated side to move* (+100 when white is the mated side,
-100 when black is); a node flagged `is_stalemate` (and not checkmate)
scores exactly 0. -/
theorem checkmateScore_signFavorsMatedSide :
    (∀ (t : Color) (mat : Int) (s : Bool) (ch : List (Move × ScoreNode)),
        calculateScore (.mk t mat true s ch) =
          if t = Color.white then (100 : ℚ) else -100) ∧
    (∀ (t : Color) (mat : Int) (ch : List (Move × ScoreNode)),
        calculateScore (.mk t mat false true ch) = 0) := by
  constructor
  · intro t mat s ch
    cases t <;> simp [calculateScore]
  · intro t mat ch
    simp [calculateScore]

/-! ### C5: child-score combination -/

/-- The combination the claim describes: every sorted child contributes,
the child at rank `r` weighted by `0.5 ^ r`.  (Stated from the claim's
words, for comparison against the source's `calculate_score`.) -/
def claimedWeightedCombination (n : ScoreNode) : ℚ :=
  ((sortedChildScores n).enum.map (fun p => p.2.1 * (1 / 2 : ℚ) ^ p.1)).sum

/-- A two-children node for the scoring counterexample: white to move,
children (leaves) with materials 2 and 4. -/
def scoreCexNode : ScoreNode :=
  .mk .white 0 false false
    [(mk' 0 0 0 1, .mk .black 2 false false []),
     (mk' 0 0 0 2, .mk .black 4 false false [])]

/-- **C5 counterexample**: on a node with children scoring 2 and 4,
`calculate_score` returns 2 (the last sorted child's score times the
smallest weight 0.5), not the weighted combination 2·1 + 4·0.5 = 4 the
claim asserts. -/
theorem calculateScore_counterexample :
    calculateScore scoreCexNode = 2 ∧
    claimedWeightedCombination scoreCexNode = 4 ∧
    ¬ calculateScore scoreCexNode = claimedWeightedCombination scoreCexNode := by
  have h1 : calculateScore scoreCexNode = 2 := by
    simp [scoreCexNode, calculateScore, childScores, sortPairs, combineLoop,
      List.insertionSort, List.orderedInsert, scoreLE]
    norm_num
  have h2 : claimedWeightedCombination scoreCexNode = 4 := by
    simp [claimedWeightedCombination, sortedChildScores, scoreCexNode,
      ScoreNode.turn, ScoreNode.children, calculateScore, childScores, sortPairs,
      List.insertionSort, List.orderedInsert, scoreLE]
    norm_num [List.enum, List.enumFrom]
  exact ⟨h1, h2, by rw [h1, h2]; norm_num⟩

instance : IsTotal (ℚ × Move) scoreLE := ⟨fun a b => le_total a.1 b.1⟩

instance : IsTrans (ℚ × Move) scoreLE := ⟨fun _ _ _ h1 h2 => le_trans h1 h2⟩

instance : IsTotal (ℚ × Move) scoreGE := ⟨fun a b => le_total b.1 a.1⟩

instance : IsTrans (ℚ × Move) scoreGE := ⟨fun _ _ _ h1 h2 => le_trans h2 h1⟩

/-- The overwriting loop ends with the last element's score times the
smallest weight. -/
theorem combineLoop_eq_last (d : ℚ × Move) :
    ∀ (l : List (ℚ × Move)) (i : Nat) (a : ℚ), l ≠ [] →
      combineLoop i a l = (l.getLastD d).1 * (1 / 2 : ℚ) ^ (i + l.length - 1)
  | [], _, _, h => absurd rfl h
  | [x], i, a, _ => by simp [combineLoop]
  | x :: y :: rest, i, a, _ => by
      have ih := combineLoop_eq_last d (y :: rest) (i + 1)
        (x.1 * (1 / 2 : ℚ) ^ i) (by simp)
      simp only [combineLoop] at ih ⊢
      rw [ih]
      congr 1
      simp [List.length]
      omega

/-- **C5** (corrected).  `calculate_score` on a node with children does sort
the (score, move) pairs ascending by score — reversed when the side to move
is black — but the combination loop overwrites its running total each
iteration, so the returned value is the *last* sorted child's score times
the smallest weight `0.5 ^ (n-1)`, not a weighted sum of all children. -/
theorem calculateScore_children (t : Color) (mat : Int)
    (ch : List (Move × ScoreNode)) (hch : ch ≠ []) :
    calculateScore (.mk t mat false false ch) =
      ((sortedChildScores (.mk t mat false false ch)).getLastD
          (0, ⟨sq 0 0, sq 0 0⟩)).1 * (1 / 2 : ℚ) ^ (ch.length - 1) ∧
    (sortedChildScores (.mk t mat false false ch)).Perm (childScores ch) ∧
    (t = Color.white →
      (sortedChildScores (.mk t mat false false ch)).Sorted scoreLE) ∧
    (t = Color.black →
      (sortedChildScores (.mk t mat false false ch)).Sorted scoreGE) := by
  have hlen : (childScores ch).length = ch.length := by
    clear hch
    induction ch with
    | nil => simp [childScores]
    | cons x rest ih =>
        obtain ⟨m, c⟩ := x
        simp [childScores, ih]
  have hsorted : sortedChildScores (.mk t mat false false ch) =
      sortPairs (decide (t = Color.black)) (childScores ch) := rfl
  have hperm : (sortedChildScores (.mk t mat false false ch)).Perm (childScores ch) := by
    rw [hsorted]
    cases hb : decide (t = Color.black) <;>
      simp [sortPairs, List.perm_insertionSort]
  refine ⟨?_, hperm, ?_, ?_⟩
  · have hne : sortPairs (decide (t = Color.black)) (childScores ch) ≠ [] := by
      intro h
      have := hperm.length_eq
      rw [hsorted] at this
      rw [h] at this
      simp [hlen] at this
      cases ch
      · exact hch rfl
      · simp at this
    have hlen2 : (sortPairs (decide (t = Color.black)) (childScores ch)).length
        = ch.length := by
      have := hperm.length_eq
      rw [hsorted] at this
      rw [this, hlen]
    cases ch with
    | nil => exact absurd rfl hch
    | cons x rest =>
        simp only [calculateScore]
        rw [combineLoop_eq_last (0, ⟨sq 0 0, sq 0 0⟩) _ 0 0 hne, hsorted, hlen2]
        simp
  · intro ht
    rw [hsorted, ht]
    simp only [sortPairs]
    simp [List.sorted_insertionSort]
  · intro ht
    rw [hsorted, ht]
    simp only [sortPairs]
    simp [List.sorted_insertionSort]

/-- Witness for C5's corrected statement at the concrete two-children node. -/
theorem calculateScore_children_witness :
    calculateScore scoreCexNode =
      ((sortedChildScores scoreCexNode).getLastD (0, ⟨sq 0 0, sq 0 0⟩)).1 *
        (1 / 2 : ℚ) ^ (1 : Nat) ∧
    (sortedChildScores scoreCexNode).Perm
      (childScores (ScoreNode.children scoreCexNode)) := by
  have h := calculateScore_children .white 0 (ScoreNode.children scoreCexNode)
    (by simp [scoreCexNode, ScoreNode.children])
  exact ⟨h.1, h.2.1⟩

/-! ### C1–C4: concrete reachable positions

All positions below are reached from the standard starting position by
applying moves through `make_child` (or `make_move`), so they are reachable
in the claims' sense.  The chains:
* C1: 1.d4 e5 2.Bg5 — then black's pseudo-legal `e8e7` walks the king onto
  the g5-bishop's diagonal.  The bishop's cached squares contain `e7` but
  not `e8`, and board.py:251 unions `relevant[move.start]` with *itself*
  (instead of with `relevant[move.end]`), so the bishop is never rescanned
  and no `InvalidPositionException` is raised.
* C2: 1.e4 d5 — the white e4-pawn sees `d5` (its capture square) but not
  `d7`, so it is never rescanned; its cached destinations miss the capture
  `exd5` that a full `rebuild()` finds.
* C3: 1.Nc3 a6 2.Ne4 b6 — then `make_child` of `Ne4-c3` rescans the shared,
  still-unmoved white e2-pawn from the vacated `e4`, and the generator walks
  the pawn's 2-square forward vector two steps from `e4`, writing the
  phantom square `e5` into the cache the parent still holds.
* C4: 1.d4 e6 2.h3 Bb4+ 3.c2c3 — blocking the check leaves the parent's
  non-empty white tracker inside the child, whose side to move is black. -/

set_option maxRecDepth 4000000

set_option maxHeartbeats 12000000

/-- Moves 1.d4 e5 2.Bg5. -/
def c1Moves : List Move := [mk' 3 1 3 3, mk' 4 6 4 4, mk' 2 0 6 4]

/-- The reachable position after 1.d4 e5 2.Bg5, black to move. -/
def c1Parent : Board := (playChain startBoard c1Moves).toOption.getD startBoard

/-- **C1** (code bug).  From the reachable position after 1.d4 e5 2.Bg5,
`generate_legal_moves` yields the child of the king move `e8e7` even though
the black king on e7 is then attacked by the g5 bishop (independently
recomputed from the raw position): no `InvalidPositionException` is raised
because board.py:251 rescans only pieces that saw `move.start`. -/
theorem generateLegalMoves_yieldsAttackedKing :
    (playChain startBoard c1Moves).isOk = true ∧
    (legalChildren c1Parent).any (fun c =>
        decide (c.state.lastMove = some (mk' 4 7 4 6)) &&
        squareAttacked c (c.state.kingSquares.black) .white) = true := by
  decide

/-- Moves 1.e4 d5 (applied through `make_move`). -/
def c2Moves : List Move := [mk' 4 1 4 3, mk' 3 6 3 4]

/-- The board after 1.e4 d5 with incrementally maintained indexes. -/
def c2Incremental : Board := (playMoves startBoard c2Moves).toOption.getD startBoard

/-- The same piece placement re-indexed by a full `rebuild()`. -/
def c2Rebuilt : Board := (rebuildB c2Incremental).toOption.getD c2Incremental

/-- **C2** (code bug).  After 1.e4 d5 the incrementally maintained
piece→destination index differs from the one a full `rebuild()` produces:
the white pawn on e4 (uuid 12) is missing its capture `d5`, because the
rescan loop at board.py:251 unions `relevant[move.start]` with itself
instead of with `relevant[move.end]` and the pawn saw only the end square. -/
theorem makeMove_incremental_ne_rebuild :
    (playMoves startBoard c2Moves).isOk = true ∧
    (rebuildB c2Incremental).isOk = true ∧
    (c2Incremental.availAt 12).contains (sq 3 4) = false ∧
    (c2Rebuilt.availAt 12).contains (sq 3 4) = true := by
  decide

/-- Moves 1.Nc3 a6 2.Ne4 b6. -/
def c3Moves : List Move := [mk' 1 0 2 2, mk' 0 6 0 5, mk' 2 2 4 3, mk' 1 6 1 5]

/-- The reachable position after 1.Nc3 a6 2.Ne4 b6, white to move. -/
def c3Parent : Board := (playChain startBoard c3Moves).toOption.getD startBoard

/-- The knight retreat `e4c3` whose speculative application leaks into the
parent. -/
def c3Move : Move := mk' 4 3 2 2

/-- The (child, parent-afterwards) pair of `make_child` on that position. -/
def c3Leak : Board × Board :=
  (makeChildLeak c3Parent c3Move).toOption.getD (c3Parent, c3Parent)

/-- The squares cached by the piece with uuid `u` on board `b`. -/
def cacheSquaresAt (b : Board) (u : Nat) : List Square :=
  match b.pieceByUuid u with
  | some gp => gp.possibleSquares.map Prod.fst
  | none => []

/-- **C3** (code bug).  On the reachable position after 1.Nc3 a6 2.Ne4 b6,
`make_child` of the retreat `Ne4-c3` mutates the parent: the shared white
e2-pawn object's `possible_squares` cache gains the square e5 (beyond its
2-square reach) during the child's rescan, so the parent afterwards differs
from the parent before. -/
theorem makeChild_mutatesParent :
    (playChain startBoard c3Moves).isOk = true ∧
    (makeChildLeak c3Parent c3Move).isOk = true ∧
    (cacheSquaresAt c3Leak.2 12).contains (sq 4 4) = true ∧
    (cacheSquaresAt c3Parent 12).contains (sq 4 4) = false ∧
    ¬ c3Leak.2 = c3Parent := by
  refine ⟨by decide, by decide, by decide, by decide, ?_⟩
  intro h
  have : (cacheSquaresAt c3Leak.2 12).contains (sq 4 4) =
      (cacheSquaresAt c3Parent 12).contains (sq 4 4) := by rw [h]
  rw [show (cacheSquaresAt c3Leak.2 12).contains (sq 4 4) = true from by decide,
    show (cacheSquaresAt c3Parent 12).contains (sq 4 4) = false from by decide] at this
  exact Bool.noConfusion this

/-- The child of the opening move e2e4 (witness input for the amended C4
statement). -/
def c4WitnessChild : Board :=
  (makeChild startBoard (mk' 4 1 4 3)).toOption.getD startBoard

/-- Moves 1.e4 d5 2.exd5 (witness input for the material invariant). -/
def c7Moves : List Move := [mk' 4 1 4 3, mk' 3 6 3 4, mk' 4 3 3 4]

/-- The board after 1.e4 d5 2.exd5 through `make_move`. -/
def c7Board : Board := (playMoves startBoard c7Moves).toOption.getD startBoard

/-- Moves 1.d4 e6 2.h3 Bb4+ 3.c3. -/
def c4Moves : List Move :=
  [mk' 3 1 3 3, mk' 4 6 4 5, mk' 7 1 7 2, mk' 5 7 1 3, mk' 2 1 2 2]

/-- The reachable position after 1.d4 e6 2.h3 Bb4+ 3.c3, black to move. -/
def c4Child : Board := (playChain startBoard c4Moves).toOption.getD startBoard

/-- **C4 counterexample**.  The position after 1.d4 e6 2.h3 Bb4+ 3.c3 is
produced by `make_child`, has black to move with an *empty* black tracker,
yet white's tracker is still non-empty: `make_child` copied the parent's
in-check tracker into the child and nothing clears it, contradicting the
claim that the non-moving side's tracker is empty in every reachable
position. -/
theorem staleCheckTracker_counterexample :
    (playChain startBoard c4Moves).isOk = true ∧
    c4Child.state.turn = Color.black ∧
    (c4Child.state.checks Color.black).nonEmpty = false ∧
    (c4Child.state.checks Color.white).nonEmpty = true := by
  refine ⟨by decide, by decide, by decide, by decide⟩

/-! ### C8: termination of `build_tree` -/

/-- The mated position yields no legal moves (the king's only pseudo-legal
square is caught by the bishop's rescan; double check empties the blocking
set). -/
theorem mateBoard_noMoves : generateLegalMoves mateBoard = .ok [] := by decide

/-- Expanding the leaf set of the bare mated root reproduces the same tree:
`prepare_children` recomputes the empty children set. -/
theorem expandLeaves_mateRoot :
    expandLeaves (.node mateBoard []) = .ok (.node mateBoard []) := by
  simp [expandLeaves, mateBoard_noMoves, Except.map]

/-- One `build_tree` iteration on the mated root only bumps the depth. -/
theorem buildStep_mate (d : Int) :
    buildStep ⟨.node mateBoard [], none, some 10, d⟩ =
      .ok ⟨.node mateBoard [], none, some 10, d + 1⟩ := by
  simp [buildStep, expandLeaves_mateRoot, Except.map]

/-- With `max_depth = math.inf` the guard stays true forever: the depth
test is vacuous and the tree never grows past one node. -/
theorem buildGuard_mate (d : Int) :
    buildGuard ⟨.node mateBoard [], none, some 10, d⟩ = true := by
  simp [buildGuard, ltLimI, ltLimN, treeSize, treeSizeList]

/-- No amount of fuel makes the loop exit on the mated root. -/
theorem buildLoop_mate (n : Nat) :
    ∀ d : Int, buildLoop n ⟨.node mateBoard [], none, some 10, d⟩ = .ok none := by
  induction n with
  | zero => intro d; rfl
  | succ k ih =>
      intro d
      rw [buildLoop, buildGuard_mate, if_pos rfl, buildStep_mate]
      exact ih (d + 1)

/-- **C8 counterexample**.  An `Engine` whose root position has no legal
moves, with `max_depth = math.inf` and `max_breadth = 10` (one limit
finite), never leaves `build_tree`'s loop: `prepare_children` on the
terminal root adds no nodes, so the size guard never trips and the depth
guard is infinite. -/
theorem buildTree_infiniteLoop_counterexample : ¬ BuildTerminates mateEngine := by
  intro h
  obtain ⟨n, hn⟩ := h
  exact hn (buildLoop_mate n 0)

/-- `buildStep` keeps the limits and bumps the depth by one. -/
theorem buildStep_fields (e e' : EngineSt) (h : buildStep e = .ok e') :
    e'.maxDepth = e.maxDepth ∧ e'.depth = e.depth + 1 := by
  unfold buildStep at h
  cases hx : expandLeaves e.root with
  | error er => rw [hx] at h; exact absurd h (by simp [Except.map])
  | ok t =>
      rw [hx] at h
      simp only [Except.map, Except.ok.injEq] at h
      rw [← h]
      exact ⟨rfl, rfl⟩

/-- With a finite depth limit the loop exits within `d - depth` iterations:
each pass increments `depth`, and the guard fails once `depth ≥ d`. -/
theorem buildLoop_exits (d : Nat) :
    ∀ (k : Nat) (e : EngineSt), e.maxDepth = some d → (↑d - e.depth).toNat ≤ k →
      buildLoop (k + 1) e ≠ .ok none := by
  intro k
  induction k with
  | zero =>
      intro e hd hk
      have hguard : buildGuard e = false := by
        have : ¬ e.depth < (d : Int) := by omega
        simp [buildGuard, ltLimI, hd, this]
      rw [buildLoop, hguard]
      simp
  | succ j ih =>
      intro e hd hk
      by_cases hg : buildGuard e = true
      · have hdlt : e.depth < (d : Int) := by
          by_contra hnot
          have : ltLimI e.depth e.maxDepth = false := by simp [ltLimI, hd, hnot]
          rw [buildGuard, this] at hg
          simp at hg
        rw [buildLoop, hg, if_pos rfl]
        cases hs : buildStep e with
        | error er => simp [Except.bind]
        | ok e' =>
            obtain ⟨hmd, hdp⟩ := buildStep_fields e e' hs
            simp only [Except.bind]
            exact ih e' (by rw [hmd, hd]) (by omega)
      · rw [buildLoop, Bool.not_eq_true] at *
        rw [hg]
        simp

/-- **C8** (corrected).  `build_tree` terminates whenever `max_depth` is
finite — the loop runs at most `max_depth - depth` iterations (or exits
early through the breadth cap or an escaping exception).  A finite
`max_breadth` alone does *not* guarantee termination (see the
counterexample). -/
theorem buildTree_terminates_finiteDepth (e : EngineSt) (d : Nat)
    (hd : e.maxDepth = some d) : BuildTerminates e :=
  ⟨(↑d - e.depth).toNat + 1, buildLoop_exits d _ e hd le_rfl⟩

/-- Witness for the amended C8 statement: the mated-root engine with
`max_depth = 2` terminates. -/
theorem buildTree_terminates_witness : BuildTerminates mateEngineFiniteDepth :=
  buildTree_terminates_finiteDepth mateEngineFiniteDepth 2 rfl

/-! ### C10: `Engine.make_move` with an unknown move -/

/-- **C10** (confirmed).  When `move` is not a key of the root's children
map, `Engine.make_move` raises `KeyError` while evaluating
`self.root.children[move]` — before any assignment — leaving root, parent
and depth unchanged; consequently `Game.make_move` returns before
`build_tree` runs or the history is appended, leaving the game unchanged. -/
theorem engineMakeMove_missingKey (e : EngineSt) (m : Move)
    (h : dget m (treeChildren e.root) = none) :
    engineMakeMove e m = (e, false) ∧
    (∀ (fuel : Nat) (g : GameSt), g.engine = e →
      gameMakeMove fuel g m = (g, false)) := by
  have h1 : engineMakeMove e m = (e, false) := by
    simp [engineMakeMove, h]
  refine ⟨h1, fun fuel g hg => ?_⟩
  rw [gameMakeMove, hg, h1]

/-- Witness for C10 on a root with no children. -/
theorem engineMakeMove_missingKey_witness :
    engineMakeMove mateEngine (mk' 0 0 0 1) = (mateEngine, false) ∧
    gameMakeMove 1 ⟨mateEngine, []⟩ (mk' 0 0 0 1) = (⟨mateEngine, []⟩, false) :=
  ⟨(engineMakeMove_missingKey mateEngine (mk' 0 0 0 1) rfl).1,
   (engineMakeMove_missingKey mateEngine (mk' 0 0 0 1) rfl).2 1 ⟨mateEngine, []⟩ rfl⟩


/-! ### Preservation lemmas for the scanning machinery

`prepare_moves` (and the loops built from it) touches the two indexes, piece
caches and — only in the king branch — the tracker of a color that is *not*
`state.next_turn`; it never touches the material, the turn fields, or the
tracker of `state.next_turn`.  These lemmas make that precise and carry it
through `make_move`. -/

/-- The state components the scanning machinery preserves: material, both
turn fields, and the tracker of color `c`. -/
def ScanPreserves (c : Color) (b b' : Board) : Prop :=
  b'.state.material = b.state.material ∧
  b'.state.turn = b.state.turn ∧
  b'.state.nextTurn = b.state.nextTurn ∧
  b'.state.checks c = b.state.checks c

theorem scanPreserves_refl (c : Color) (b : Board) : ScanPreserves c b b :=
  ⟨rfl, rfl, rfl, rfl⟩

theorem scanPreserves_trans {c : Color} {b1 b2 b3 : Board}
    (h1 : ScanPreserves c b1 b2) (h2 : ScanPreserves c b2 b3) :
    ScanPreserves c b1 b3 :=
  ⟨h2.1.trans h1.1, h2.2.1.trans h1.2.1, h2.2.2.1.trans h1.2.2.1,
   h2.2.2.2.trans h1.2.2.2⟩

/-- Writing one color's tracker leaves the other color's tracker alone. -/
theorem checks_setChecks_ne (st : BoardState) (col c : Color) (cv : CheckVectors)
    (h : ¬ col = c) : (st.setChecks col cv).checks c = st.checks c := by
  cases col <;> cases c <;> first | rfl | exact absurd rfl h

/-- `setChecks` touches no other state field. -/
theorem setChecks_fields (st : BoardState) (col : Color) (cv : CheckVectors) :
    (st.setChecks col cv).material = st.material ∧
    (st.setChecks col cv).turn = st.turn ∧
    (st.setChecks col cv).nextTurn = st.nextTurn := by
  cases col <;> exact ⟨rfl, rfl, rfl⟩

theorem processRaySquares_preserves (u : Nat) (pc : Color) (psq : Square)
    (v : MovementVector) :
    ∀ (sqs : List Square) (term : Bool) (b b' : Board),
      processRaySquares u pc psq v sqs term b = .ok b' →
      ScanPreserves b.state.nextTurn b b' := by
  intro sqs
  induction sqs with
  | nil =>
      intro term b b' h
      unfold processRaySquares at h
      cases h
      exact scanPreserves_refl _ _
  | cons s rest ih =>
      intro term b b' h
      cases term with
      | true =>
          unfold processRaySquares at h
          exact ih true ((b.relDiscard s u).availDiscard u s) b' h
      | false =>
          unfold processRaySquares at h
          cases hocc : dget s b.position with
          | some held =>
              simp only [hocc] at h
              by_cases hcap : held.piece.color ≠ pc ∧ v.canCapture = true
              · rw [if_pos hcap] at h
                by_cases hking : held.piece.type = PieceType.king
                · rw [if_pos hking] at h
                  by_cases hnt : held.piece.color = b.state.nextTurn
                  · rw [if_pos hnt] at h
                    exact absurd h (by simp)
                  · rw [if_neg hnt] at h
                    cases hadd : (b.state.checks held.piece.color).add psq held.square v with
                    | error e => rw [hadd] at h; exact absurd h (by simp)
                    | ok cv =>
                        rw [hadd] at h
                        have hmid := ih true
                          (((b.relAdd s u).setStateChecks held.piece.color cv).availAdd u s)
                          b' h
                        have hfields := setChecks_fields b.state held.piece.color cv
                        have hstep : ScanPreserves b.state.nextTurn b
                            (((b.relAdd s u).setStateChecks held.piece.color cv).availAdd u s) :=
                          ⟨hfields.1, hfields.2.1, hfields.2.2,
                           checks_setChecks_ne b.state held.piece.color b.state.nextTurn cv hnt⟩
                        have hnt3 : (((b.relAdd s u).setStateChecks held.piece.color cv).availAdd
                            u s).state.nextTurn = b.state.nextTurn := hfields.2.2
                        rw [hnt3] at hmid
                        exact scanPreserves_trans hstep hmid
                · rw [if_neg hking] at h
                  exact ih true ((b.relAdd s u).availAdd u s) b' h
              · rw [if_neg hcap] at h
                exact ih true ((b.relAdd s u).availDiscard u s) b' h
          | none =>
              simp only [hocc] at h
              by_cases honly : v.canOnlyCapture = true
              · rw [if_pos honly] at h
                exact ih false ((b.relAdd s u).availDiscard u s) b' h
              · rw [if_neg honly] at h
                exact ih false ((b.relAdd s u).availAdd u s) b' h

theorem processVector_preserves (b : Board) (u : Nat) (pc : Color) (psq : Square)
    (v : MovementVector) (start : Square) (b' : Board)
    (h : processVector b u pc psq v start = .ok b') :
    ScanPreserves b.state.nextTurn b b' := by
  unfold processVector at h
  exact processRaySquares_preserves u pc psq v (genRay v start) false
    (b.cachePieceRay u v (genRay v start)) b' h

theorem processVectors_preserves (u : Nat) (pc : Color) (psq : Square) :
    ∀ (vs : List MovementVector) (b b' : Board),
      processVectors u pc psq vs b = .ok b' → ScanPreserves b.state.nextTurn b b' := by
  intro vs
  induction vs with
  | nil =>
      intro b b' h
      unfold processVectors at h
      cases h
      exact scanPreserves_refl _ _
  | cons v rest ih =>
      intro b b' h
      unfold processVectors at h
      cases hx : processVector b u pc psq v (psq.applyDiff v.dirCol v.dirRow) with
      | error e => rw [hx] at h; exact absurd h (by simp [Except.bind])
      | ok bmid =>
          rw [hx] at h
          simp only [Except.bind] at h
          have h1 := processVector_preserves b u pc psq v _ bmid hx
          have h2 := ih bmid b' h
          rw [h1.2.2.1] at h2
          exact scanPreserves_trans h1 h2

theorem prepareMovesSecond_preserves (b1 : Board) (u : Nat) (m : Move) (b' : Board)
    (h : prepareMovesSecond b1 u m = .ok b') : ScanPreserves b1.state.nextTurn b1 b' := by
  unfold prepareMovesSecond at h
  cases hpu : b1.pieceByUuid u with
  | none => simp only [hpu] at h; cases h; exact scanPreserves_refl _ _
  | some gp1 =>
      simp only [hpu] at h
      cases hd : dget m.stop gp1.possibleSquares with
      | some v =>
          simp only [hd] at h
          exact processVector_preserves b1 u gp1.piece.color gp1.square v m.stop b' h
      | none => simp only [hd] at h; cases h; exact scanPreserves_refl _ _

theorem prepareMovesB_preserves (b : Board) (u : Nat) (mo : Option Move) (b' : Board)
    (h : prepareMovesB b u mo = .ok b') : ScanPreserves b.state.nextTurn b b' := by
  unfold prepareMovesB at h
  cases hpu : b.pieceByUuid u with
  | none => simp only [hpu] at h; cases h; exact scanPreserves_refl _ _
  | some gp =>
      simp only [hpu] at h
      cases mo with
      | none => exact processVectors_preserves u gp.piece.color gp.square _ b b' h
      | some m =>
          simp only at h
          cases hd : dget m.start gp.possibleSquares with
          | some v =>
              simp only [hd] at h
              cases hx : processVector b u gp.piece.color gp.square v m.start with
              | error e => rw [hx] at h; exact absurd h (by simp [Except.bind])
              | ok bmid =>
                  rw [hx] at h
                  simp only [Except.bind] at h
                  have h1 := processVector_preserves b u gp.piece.color gp.square v m.start bmid hx
                  have h2 := prepareMovesSecond_preserves bmid u m b' h
                  rw [h1.2.2.1] at h2
                  exact scanPreserves_trans h1 h2
          | none =>
              simp only [hd] at h
              simp only [Except.bind] at h
              exact prepareMovesSecond_preserves b u m b' h

theorem scanAll_preserves :
    ∀ (us : List Nat) (b b' : Board),
      scanAll us b = .ok b' → ScanPreserves b.state.nextTurn b b' := by
  intro us
  induction us with
  | nil =>
      intro b b' h
      unfold scanAll at h
      cases h
      exact scanPreserves_refl _ _
  | cons u rest ih =>
      intro b b' h
      unfold scanAll at h
      cases hx : prepareMovesB b u none with
      | error e => rw [hx] at h; exact absurd h (by simp [Except.bind])
      | ok bmid =>
          rw [hx] at h
          simp only [Except.bind] at h
          have h1 := prepareMovesB_preserves b u none bmid hx
          have h2 := ih bmid b' h
          rw [h1.2.2.1] at h2
          exact scanPreserves_trans h1 h2

theorem rescanAll_preserves (m : Move) :
    ∀ (us : List Nat) (b b' : Board),
      rescanAll m us b = .ok b' → ScanPreserves b.state.nextTurn b b' := by
  intro us
  induction us with
  | nil =>
      intro b b' h
      unfold rescanAll at h
      cases h
      exact scanPreserves_refl _ _
  | cons u rest ih =>
      intro b b' h
      unfold rescanAll at h
      cases hx : prepareMovesB b u (some m) with
      | error e => rw [hx] at h; exact absurd h (by simp [Except.bind])
      | ok bmid =>
          rw [hx] at h
          simp only [Except.bind] at h
          have h1 := prepareMovesB_preserves b u (some m) bmid hx
          have h2 := ih bmid b' h
          rw [h1.2.2.1] at h2
          exact scanPreserves_trans h1 h2

/-- `capturedDelta b m`: the signed value of the piece on `move.end`, or 0
when the destination is empty.  Positive for a captured black piece,
negative for a captured white one — exactly the update at board.py:242. -/
def capturedDelta (b : Board) (m : Move) : Int :=
  match dget m.stop b.position with
  | some cap => cap.piece.value * (if cap.piece.color = Color.black then 1 else -1)
  | none => 0

theorem refreshRelevant_fields (u : Nat) :
    ∀ (keys : List Square) (b : Board),
      (b.refreshRelevantForMoved keys u).state = b.state ∧
      (b.refreshRelevantForMoved keys u).position = b.position := by
  intro keys
  induction keys with
  | nil => intro b; exact ⟨rfl, rfl⟩
  | cons k ks ih =>
      intro b
      unfold Board.refreshRelevantForMoved
      by_cases hc : (b.relAt k).contains u = true
      · rw [if_pos hc]
        exact ih ((b.relDiscard k u).relAdd k u)
      · rw [if_neg hc]
        exact ih b

theorem purgeCaptured_fields (cu : Nat) :
    ∀ (ps : List (Square × MovementVector)) (b : Board),
      (purgeCaptured cu ps b).state = b.state ∧
      (purgeCaptured cu ps b).position = b.position := by
  intro ps
  induction ps with
  | nil => intro b; exact ⟨rfl, rfl⟩
  | cons p rest ih =>
      intro b
      unfold purgeCaptured
      exact ih (b.relDiscard p.1 cu)

theorem applyCapture_fields (b : Board) (m : Move) :
    (applyCapture b m).state.material = b.state.material + capturedDelta b m ∧
    (applyCapture b m).state.turn = b.state.turn ∧
    (applyCapture b m).state.nextTurn = b.state.nextTurn ∧
    (applyCapture b m).state.checkWhite = b.state.checkWhite ∧
    (applyCapture b m).state.checkBlack = b.state.checkBlack ∧
    (applyCapture b m).position = b.position := by
  unfold applyCapture capturedDelta
  cases hcap : dget m.stop b.position with
  | none => simp
  | some cap =>
      have hp := purgeCaptured_fields cap.uuid cap.possibleSquares
        { b with
            state := { b.state with material := b.state.material +
              cap.piece.value * (if cap.piece.color = Color.black then 1 else -1) }
            available := ddel cap.uuid b.available }
      refine ⟨?_, ?_, ?_, ?_, ?_, ?_⟩
      · rw [hp.1]
      · rw [hp.1]
      · rw [hp.1]
      · rw [hp.1]
      · rw [hp.1]
      · rw [hp.2]

/-- The state facts `make_move` guarantees on success: the turn flips, the
mover's tracker is carried over untouched, and the material moves by the
captured piece's signed value. -/
theorem makeMove_state (b : Board) (m : Move) (b' : Board)
    (h : makeMove b m = .ok b') :
    b'.state.turn = b.state.nextTurn ∧
    b'.state.nextTurn = b.state.turn ∧
    b'.state.material = b.state.material + capturedDelta b m ∧
    b'.state.checks b.state.turn = b.state.checks b.state.turn := by
  unfold makeMove at h
  cases hstart : dget m.start b.position with
  | none => rw [hstart] at h; exact absurd h (by simp)
  | some moved0 =>
      rw [hstart] at h
      simp only at h
      set b1 : Board :=
        { b with available := dset moved0.uuid [] (ddel moved0.uuid b.available) } with hb1
      set b2 : Board :=
        b1.refreshRelevantForMoved (moved0.possibleSquares.map Prod.fst) moved0.uuid with hb2
      by_cases hturn : moved0.piece.color ≠ b2.state.turn
      · rw [if_pos hturn] at h
        exact absurd h (by simp)
      · rw [if_neg hturn] at h
        set b3 : Board := applyCapture b2 m with hb3
        set b4 : Board :=
          { b3 with position := ddel m.start (dset m.stop (moved0.moveTo m.stop) b3.position) }
          with hb4
        set b5 : Board := { b4 with state := b4.state.takeTurn } with hb5
        have hrf := refreshRelevant_fields moved0.uuid (moved0.possibleSquares.map Prod.fst) b1
        have hb2state : b2.state = b.state := hrf.1
        have hb2pos : b2.position = b.position := hrf.2
        have hac := applyCapture_fields b2 m
        have hb5turn : b5.state.turn = b.state.nextTurn := by
          show b4.state.takeTurn.turn = b.state.nextTurn
          show b4.state.nextTurn = b.state.nextTurn
          show b3.state.nextTurn = b.state.nextTurn
          rw [hac.2.2.1, hb2state]
        have hb5next : b5.state.nextTurn = b.state.turn := by
          show b4.state.takeTurn.nextTurn = b.state.turn
          show b4.state.turn = b.state.turn
          show b3.state.turn = b.state.turn
          rw [hac.2.1, hb2state]
        have hb5mat : b5.state.material = b.state.material + capturedDelta b m := by
          show b4.state.takeTurn.material = b.state.material + capturedDelta b m
          show b3.state.material = b.state.material + capturedDelta b m
          rw [hac.1, hb2state]
          have : capturedDelta b2 m = capturedDelta b m := by
            unfold capturedDelta
            rw [hb2pos]
          rw [this]
        have hb5checks : ∀ c : Color, b5.state.checks c = b.state.checks c := by
          intro c
          show b4.state.takeTurn.checks c = b.state.checks c
          have htt : ∀ st : BoardState, st.takeTurn.checks c = st.checks c := by
            intro st; cases c <;> rfl
          rw [htt]
          show b3.state.checks c = b.state.checks c
          have : b3.state.checks c = b2.state.checks c := by
            cases c
            · exact hac.2.2.2.1
            · exact hac.2.2.2.2.1
          rw [this, hb2state]
        cases hx : prepareMovesB b5 moved0.uuid none with
        | error e => rw [hx] at h; exact absurd h (by simp [Except.bind])
        | ok b6 =>
            rw [hx] at h
            simp only [Except.bind] at h
            have h1 := prepareMovesB_preserves b5 moved0.uuid none b6 hx
            have h2 := rescanAll_preserves m _ b6 b' h
            rw [h1.2.2.1] at h2
            have hpres := scanPreserves_trans h1 h2
            rw [hb5next] at hpres
            refine ⟨?_, ?_, ?_, ?_⟩
            · rw [hpres.2.1, hb5turn]
            · rw [hpres.2.2.1, hb5next]
            · rw [hpres.1, hb5mat]
            · rw [hpres.2.2.2, hb5checks]

theorem mkBoardState_turn (lm : Option Move) (t : Color) (mat : Int)
    (cv : CheckVectors) (ks : KingLocations) :
    (mkBoardState lm t mat cv ks).turn = t ∧
    (mkBoardState lm t mat cv ks).nextTurn = t.other ∧
    (mkBoardState lm t mat cv ks).material = mat := by
  cases t <;> exact ⟨rfl, rfl, rfl⟩

theorem mkBoardState_checks_turn (lm : Option Move) (t : Color) (mat : Int)
    (cv : CheckVectors) (ks : KingLocations) :
    (mkBoardState lm t mat cv ks).checks t = cv := by
  cases t <;> rfl

/-- **C4** (corrected, general part).  Whenever the parent is *not* in
check, every successful `make_child` produces a position whose mover-color
tracker is empty: the side to move's tracker is the only one that can be
non-empty.  (When the parent *is* in check its stale tracker is carried into
the child — see the counterexample.) -/
theorem makeChild_moverTracker_empty (b : Board) (m : Move) (c : Board)
    (hpar : (b.state.checks b.state.turn).nonEmpty = false)
    (hok : makeChild b m = .ok c) :
    c.state.turn = b.state.turn.other ∧
    (c.state.checks b.state.turn).nonEmpty = false := by
  unfold makeChild at hok
  set child0 : Board :=
    { state := mkBoardState (some m) b.state.turn b.state.material
        (b.state.checks b.state.turn) (b.state.kingSquares.move m)
      position := b.position
      relevant := b.relevant
      available := b.available } with hchild0
  have hmk := mkBoardState_turn (some m) b.state.turn b.state.material
    (b.state.checks b.state.turn) (b.state.kingSquares.move m)
  have hst := makeMove_state child0 m c hok
  have hturn0 : child0.state.turn = b.state.turn := hmk.1
  have hnext0 : child0.state.nextTurn = b.state.turn.other := hmk.2.1
  constructor
  · rw [hst.1, hnext0]
  · have := hst.2.2.2
    rw [hturn0] at this
    rw [this]
    rw [show child0.state.checks b.state.turn =
        b.state.checks b.state.turn from mkBoardState_checks_turn _ _ _ _ _]
    exact hpar

/-- Witness for the amended C4 statement: the opening move `e2e4` from the
starting position (not in check) yields a child whose white tracker is
empty. -/
theorem makeChild_moverTracker_empty_witness :
    c4WitnessChild.state.turn = Color.white.other ∧
    (c4WitnessChild.state.checks Color.white).nonEmpty = false := by
  have h := makeChild_moverTracker_empty startBoard (mk' 4 1 4 3) c4WitnessChild
    (by decide) (by decide)
  exact ⟨by rw [← show startBoard.state.turn = Color.white from by decide]; exact h.1,
         by rw [← show startBoard.state.turn = Color.white from by decide]; exact h.2⟩

/-! ### C7: the material invariant -/

/-- The signed captured values accumulated along a move sequence (each move
read against the board it is applied to). -/
def capSum (b : Board) : List Move → Int
  | [] => 0
  | m :: ms =>
      capturedDelta b m +
        (match makeMove b m with
         | .ok b' => capSum b' ms
         | .error _ => 0)

theorem playMoves_material :
    ∀ (ms : List Move) (b b' : Board), playMoves b ms = .ok b' →
      b'.state.material = b.state.material + capSum b ms := by
  intro ms
  induction ms with
  | nil =>
      intro b b' h
      unfold playMoves at h
      cases h
      simp [capSum]
  | cons m rest ih =>
      intro b b' h
      unfold playMoves at h
      cases hx : makeMove b m with
      | error e => rw [hx] at h; exact absurd h (by simp [Except.bind])
      | ok bmid =>
          rw [hx] at h
          simp only [Except.bind] at h
          have hstep := (makeMove_state b m bmid hx).2.2.1
          have hrest := ih bmid b' h
          unfold capSum
          rw [hx]
          rw [hrest, hstep]
          ring

/-- `rebuild()` (a pure re-scan) never changes the material, so the
starting board keeps the raw board's material of 0. -/
theorem startBoard_material : startBoard.state.material = 0 := by
  unfold startBoard
  cases hx : rebuildB rawStartBoard with
  | error e => rfl
  | ok r =>
      show r.state.material = 0
      unfold rebuildB at hx
      have := (scanAll_preserves _ _ r hx).1
      rw [this]
      rfl

/-- **C7** (confirmed).  Starting from the initial board (material 0),
after any successful sequence of `make_move` calls the material equals the
signed sum of the captured pieces' values — positive for each captured
black piece, negative for white — and a captured king (value 0) never
contributes. -/
theorem material_eq_capturedSum (ms : List Move) (b' : Board)
    (h : playMoves startBoard ms = .ok b') :
    startBoard.state.material = 0 ∧
    b'.state.material = capSum startBoard ms ∧
    (∀ (bAny : Board) (m : Move) (cap : GamePiece),
        dget m.stop bAny.position = some cap → cap.piece.type = PieceType.king →
        capturedDelta bAny m = 0) := by
  refine ⟨startBoard_material, ?_, ?_⟩
  · have := playMoves_material ms startBoard b' h
    rw [this, startBoard_material]
    ring
  · intro bAny m cap hcap hking
    have hval : cap.piece.value = 0 := by
      unfold Piece.value
      rw [hking]
    unfold capturedDelta
    rw [hcap]
    simp only [hval]
    ring

/-- Witness for C7: the sequence 1.e4 d5 2.exd5 captures one black pawn and
leaves material +1, matching the captured-value sum. -/
theorem material_eq_capturedSum_witness :
    playMoves startBoard c7Moves = .ok c7Board ∧
    c7Board.state.material = capSum startBoard c7Moves ∧
    c7Board.state.material = 1 :=
  ⟨by decide, (material_eq_capturedSum c7Moves c7Board (by decide)).2.1, by decide⟩

end Chess
